import Mathlib

/-!
Shallow embedding of the bedrock-jobs scheduler core (`lib/index.js`).

Worker ids and expiry thresholds are 40-hex-digit strings in the source;
they are modelled here as lists of hex digit values (`List Nat`, each
entry `< 16`), with JS lexicographic string comparison modelled as
lexicographic comparison of the digit lists (lowercase hex characters
are ordered the same way as their digit values in both ASCII/UTF-16
code units and UTF-8 bytes, so the two orders coincide).  Instants and
durations are integers (milliseconds since epoch); the ISO 8601
parsing/formatting done by the external `moment-interval` and
`bedrock.util.w3cDate` collaborators is abstracted away, as is the
`database.hash` encoding of external ids (modelled as the identity).
-/

namespace BedrockJobs

/-! ### Definitions: worker identity (`api.createWorkerId`, `api.encodeExpiredDate`) -/

/-- Strict lexicographic comparison on digit strings, modelling the JS
string `<` operator (and MongoDB `$lt` on strings). -/
def lexLt : List Nat → List Nat → Bool
  | _, [] => false
  | [], _ :: _ => true
  | a :: as, b :: bs => decide (a < b) || (a == b && lexLt as bs)

/-- Lexicographic `≤`, modelling JS `<=` / MongoDB `$lte` on strings. -/
def lexLe (xs ys : List Nat) : Bool := lexLt xs ys || xs == ys

/-- Big-endian hex digits of `n`, as produced by JS `n.toString(16)`
(value `0` yields the single digit `0`).  Structural recursion on a
fuel argument keeps the definition kernel-reducible. -/
def hexDigitsGo : Nat → Nat → List Nat
  | 0, _ => []
  | fuel + 1, n => if n < 16 then [n] else hexDigitsGo fuel (n / 16) ++ [n % 16]

/-- `Date.now().toString(16)`: hex digit string of a timestamp. -/
def hexDigits (n : Nat) : List Nat := hexDigitsGo (n + 1) n

/-- The `while(st.length < 16) st = '0' + st` padding loop. -/
def padStart (k : Nat) (ds : List Nat) : List Nat :=
  List.replicate (k - ds.length) 0 ++ ds

/-- `api.createWorkerId`: 16 hex digits of the creation time followed by
24 random hex digits (the sha1-of-uuid suffix is modelled as an
arbitrary digit-list parameter). -/
def createWorkerId (creation : Nat) (rand : List Nat) : List Nat :=
  padStart 16 (hexDigits creation) ++ rand

/-- `api.encodeExpiredDate`: 16 hex digits of the instant followed by
24 zero digits. -/
def encodeExpiredDate (expired : Nat) : List Nat :=
  padStart 16 (hexDigits expired) ++ List.replicate 24 0

/-- Numeric value of a big-endian hex digit string. -/
def digitsVal (ds : List Nat) : Nat := ds.foldl (fun acc d => 16 * acc + d) 0

/-! ### Definitions: schedule calculator (`_getNextJobSchedule`)

A schedule string splits on `/` into one part (a single instant), two
parts (`R[n]/DURATION`), or three parts (`R[n]/START/DURATION`).
`rep = none` models a bare `R` first part (the source computes
`repeats = -1`); `rep = some n` models `Rn`. -/

inductive Sched where
  | instant (t : Int)
  | repeatDur (rep : Option Nat) (period : Int)
  | repeatStartDur (rep : Option Nat) (start : Int) (period : Int)
deriving DecidableEq, Repr

/-- The schedule-rewrite block of `_getNextJobSchedule` under
`options.update`: with `repeats === 1` the schedule becomes the bare
instant that just fired, otherwise it is rewritten to
`R[repeats]/<interval end>/<period>` — the source writes `repeats`
back unchanged. -/
def rewriteSched (rep : Option Nat) (due period : Int) : Sched :=
  if rep = some 1 then .instant due else .repeatStartDur rep due period

/-- `_getNextJobSchedule(job, options)`: returns the next due instant
(`none` meaning "do not reschedule") together with the (possibly
rewritten) schedule.  A job with no schedule gets the current instant
(`job.schedule = bedrock.util.w3cDate()`).  In update mode the interval
start is always reset to `now` (for the three-part shape this is the
drift rule), and the due date is the interval end `now + period`. -/
def getNextJobSchedule (now : Int) (schedule : Option Sched) (update : Bool) :
    Option Int × Sched :=
  match schedule.getD (.instant now) with
  | .instant t => ((if update then none else some t), .instant t)
  | .repeatDur rep period =>
      if update then
        (some (now + period), rewriteSched rep (now + period) period)
      else
        (some now, .repeatDur rep period)
  | .repeatStartDur rep start period =>
      if update then
        (some (now + period), rewriteSched rep (now + period) period)
      else
        (some start, .repeatStartDur rep start period)

/-! ### Definitions: job records -/

/-- The `job` subdocument.  External ids and their `database.hash` are
modelled as numbers with an identity hash (the hash lives in the
external `bedrock-mongodb` collaborator; only injectivity matters
here).  `data` is opaque to the core and omitted. -/
structure Job where
  id : Nat
  type : String
  schedule : Option Sched
  priority : Int
  concurrency : Int
deriving DecidableEq, Repr

/-- `database.hash`, modelled as the identity encoding. -/
def dbHash (id : Nat) : Nat := id

/-- One document of the `job` collection. -/
structure JobRecord where
  id : Nat
  metaCreated : Int
  metaUpdated : Int
  job : Job
  due : Int
  completed : Option Int
  permits : Int
  workers : List (List Nat)
deriving DecidableEq, Repr

/-! ### Definitions: Step A — candidate selection -/

/-- Registered job types: name together with `lockDuration` (ms). -/
abbrev TypeTable := List (String × Nat)

/-- `jobTypes[type].lockDuration` lookup. -/
def lockOf (types : TypeTable) (ty : String) : Nat :=
  (((types.find? (fun t => t.1 == ty)).map (fun t => t.2)).getD 0)

/-- The `baseQuery`: `due ≤ now`, plus `id = hash(options.id)` when a
specific job id was requested. -/
def baseMatch (now : Int) (optId : Option Nat) (r : JobRecord) : Bool :=
  decide (r.due ≤ now) &&
    (match optId with
     | none => true
     | some i => r.id == dbHash i)

/-- The idle-candidate query filter: supported type, `permits ≠ 0`,
and `workers ≠ workerId` (the array does not contain the worker id). -/
def idleMatch (types : TypeTable) (wid : List Nat) (now : Int)
    (optId : Option Nat) (r : JobRecord) : Bool :=
  baseMatch now optId r &&
    types.any (fun t => t.1 == r.job.type) &&
    !(r.permits == 0) &&
    !(r.workers.contains wid)

/-- One `$or` clause of the expired-candidate query, for a registered
type with its lock duration: matching type, some worker at or below
the expired threshold, and no worker equal to the claiming worker id. -/
def expiredClause (now : Int) (wid : List Nat) (t : String × Nat)
    (r : JobRecord) : Bool :=
  r.job.type == t.1 &&
    r.workers.any (fun w => lexLe w (encodeExpiredDate (now - (t.2 : Int)).toNat)) &&
    !(r.workers.contains wid)

/-- The expired-candidate query filter: base query, `permits = 0`, and
the `$or` of the per-type clauses. -/
def expiredMatch (types : TypeTable) (wid : List Nat) (now : Int)
    (optId : Option Nat) (r : JobRecord) : Bool :=
  baseMatch now optId r && r.permits == 0 &&
    types.any (fun t => expiredClause now wid t r)

/-- First minimal-priority record, folding left over the remaining
candidates.  This models `findOne` with sort `{'job.priority': 1}`:
the returned record has minimal `job.priority`; among equal priorities
the store order (the list order here) decides, since the sort document
names no further key. -/
def pickMin : JobRecord → List JobRecord → JobRecord
  | best, [] => best
  | best, r :: rs => pickMin (if r.job.priority < best.job.priority then r else best) rs

/-- `findOne(query, {}, {sort: {'job.priority': 1}})` over a stored
list of records. -/
def findOneSorted (p : JobRecord → Bool) (db : List JobRecord) : Option JobRecord :=
  match db.filter p with
  | [] => none
  | r :: rs => some (pickMin r rs)

/-- The `getIdleJob` query (returns nothing when no job types are
registered). -/
def getIdleJob (types : TypeTable) (wid : List Nat) (now : Int)
    (optId : Option Nat) (db : List JobRecord) : Option JobRecord :=
  if types = [] then none
  else findOneSorted (idleMatch types wid now optId) db

/-- The `getExpiredJob` query (only consulted when the idle query found
nothing; returns nothing when no job types are registered). -/
def getExpiredJob (types : TypeTable) (wid : List Nat) (now : Int)
    (optId : Option Nat) (db : List JobRecord) : Option JobRecord :=
  if types = [] then none
  else findOneSorted (expiredMatch types wid now optId) db

/-- Step A: the idle query, then the expired query only on a miss. -/
def selectCandidate (types : TypeTable) (wid : List Nat) (now : Int)
    (optId : Option Nat) (db : List JobRecord) : Option JobRecord :=
  match getIdleJob types wid now optId db with
  | some r => some r
  | none => getExpiredJob types wid now optId db

/-! ### Definitions: Step B — conditional claim (`markJob`) -/

/-- The `$set` document of the claim update: refresh `meta.updated`,
prune workers at or below the expired threshold (the source keeps
`worker > expired`), append the claiming worker id, and, when permits
are not unlimited, set
`permits + (old workers length − new workers length)`. -/
def markJobUpdate (lockDuration : Nat) (now metaNow : Int) (wid : List Nat)
    (r : JobRecord) : JobRecord :=
  let expired := encodeExpiredDate (now - (lockDuration : Int)).toNat
  let newWorkers := (r.workers.filter (fun w => lexLt expired w)) ++ [wid]
  { r with
    metaUpdated := metaNow
    workers := newWorkers
    permits :=
      if 0 ≤ r.permits then
        r.permits + (r.workers.length : Int) - (newWorkers.length : Int)
      else r.permits }

/-- The claim update's predicate:
`{id: record.id, permits: record.permits, workers: record.workers}`. -/
def markJobPred (R r : JobRecord) : Bool :=
  r.id == R.id && r.permits == R.permits && r.workers == R.workers

/-- A conditional single-document update (`multi: false`,
`upsert: false`): the first matching record is rewritten; the second
component is the matched-document count `result.n` (`1` or `0`). -/
def applyCondUpdateSingle (pred : JobRecord → Bool) (upd : JobRecord → JobRecord) :
    List JobRecord → List JobRecord × Nat
  | [] => ([], 0)
  | r :: rs =>
      if pred r then (upd r :: rs, 1)
      else
        let rest := applyCondUpdateSingle pred upd rs
        (r :: rest.1, rest.2)

/-! ### Definitions: Steps C–E — execute, reschedule, release -/

/-- Outcome of invoking the registered handler `fn(job, callback)`:
success, an error passed to the callback, or a synchronous throw. -/
inductive HandlerOutcome where
  | ok
  | callbackError (e : String)
  | thrown (e : String)
deriving DecidableEq, Repr

/-- The `runJob` step: the handler is invoked inside `try`/`catch` and
its callback error is forwarded as a plain value
(`callback(null, err || null)` / `callback(null, ex)`), so both failure
modes are captured as data and never propagate as an error of the
worker session. -/
def runJobStep (outcome : HandlerOutcome) : Option String :=
  match outcome with
  | .ok => none
  | .callbackError e => some e
  | .thrown e => some e

/-- The `checkResult` step: compute the next due instant with
`update: true`.  On `null`, remove the record (predicate on hashed id
and `job.type`); otherwise issue the conditional reschedule update
guarded by `due ≤ due_new`, setting `meta.updated`, `job.schedule`,
`due` and `completed`. -/
def checkResultStep (now : Int) (job : Job) (metaNow : Int)
    (db : List JobRecord) : Option Int × List JobRecord :=
  let next := getNextJobSchedule now job.schedule true
  match next.1 with
  | none =>
      (none, db.filter (fun r => !(r.id == dbHash job.id && r.job.type == job.type)))
  | some d =>
      (some d,
        (applyCondUpdateSingle
          (fun r => r.id == dbHash job.id && r.job.type == job.type && decide (r.due ≤ d))
          (fun r =>
            { r with
              metaUpdated := metaNow
              job := { r.job with schedule := some next.2 }
              due := d
              completed := some metaNow })
          db).1)

/-- The mutation of the `cleanup` step (Step E): `$pull` the worker id
and, when permits are not unlimited, `$inc` permits by 1. -/
def cleanupUpdate (wid : List Nat) (metaNow : Int) (r : JobRecord) : JobRecord :=
  { r with
    metaUpdated := metaNow
    workers := r.workers.filter (fun w => w ≠ wid)
    permits := if 0 ≤ r.permits then r.permits + 1 else r.permits }

/-- The `cleanup` step: conditional update with predicate
`{id, 'job.type', workers: workerId}` applying `cleanupUpdate`. -/
def cleanupStep (wid : List Nat) (job : Job) (metaNow : Int)
    (db : List JobRecord) : List JobRecord :=
  (applyCondUpdateSingle
    (fun r => r.id == dbHash job.id && r.job.type == job.type && r.workers.contains wid)
    (cleanupUpdate wid metaNow)
    db).1

/-- The pipeline after a successful claim: run the handler (capturing
its failure as a value), then `checkResult`, then `cleanup` unless the
record was removed.  Returns the captured handler error alongside the
resulting store. -/
def runClaimed (outcome : HandlerOutcome) (record : JobRecord) (wid : List Nat)
    (now metaNow : Int) (db : List JobRecord) : Option String × List JobRecord :=
  let error := runJobStep outcome
  let next := checkResultStep now record.job metaNow db
  match next.1 with
  | none => (error, next.2)
  | some _ => (error, cleanupStep wid record.job metaNow next.2)

/-! ### Definitions: the worker-session loop (`_runWorker`) -/

/-- Result of one pass through the `async.auto` body: no candidate
(session done), no candidate for a requested id (`NotFound` error),
a claim update that matched zero documents (lost race — loop again),
or a successful claim. -/
inductive StepOutcome where
  | done
  | notFound (id : Nat)
  | retry
  | claimed (r : JobRecord) (db : List JobRecord)
deriving DecidableEq, Repr

/-- One pass of the worker loop.  `db0` is the store state seen by the
Step A queries and `db1` the state at the Step B update — they may
differ because other nodes write between the two round trips. -/
def sessionIteration (types : TypeTable) (wid : List Nat) (now metaNow : Int)
    (optId : Option Nat) (db0 db1 : List JobRecord) : StepOutcome :=
  match selectCandidate types wid now optId db0 with
  | none =>
      match optId with
      | some i => .notFound i
      | none => .done
  | some R =>
      let res := applyCondUpdateSingle (markJobPred R)
        (markJobUpdate (lockOf types R.job.type) now metaNow wid) db1
      if res.2 = 0 then .retry else .claimed R res.1

/-- Terminal result of a worker session. -/
inductive SessionResult where
  | finished
  | failed (id : Nat)
  | fuelExhausted
deriving DecidableEq, Repr

/-- The `async.until` loop of `_runWorker`, driven by fuel.  The worker
id and captured `now` are bound once, before the loop, so every
iteration reuses them unchanged.  `env` supplies the store states seen
by each iteration (concurrent writers may change the store between
iterations, and between Step A and Step B within one iteration); after
a successful claim the post-claim pipeline runs and the loop continues,
which the abstraction also folds into `env`. -/
def runSession (types : TypeTable) (wid : List Nat) (now metaNow : Int)
    (optId : Option Nat) (env : Nat → List JobRecord × List JobRecord) :
    Nat → SessionResult
  | 0 => .fuelExhausted
  | fuel + 1 =>
      match sessionIteration types wid now metaNow optId (env fuel).1 (env fuel).2 with
      | .done => .finished
      | .notFound i => .failed i
      | .retry => runSession types wid now metaNow optId env fuel
      | .claimed _ _ => runSession types wid now metaNow optId env fuel

/-! ### Definitions: concrete sample data for witness evaluations -/

/-- A record holding one permit and one live worker (`[1]`), with
`concurrency = 2`. -/
def cRec1 : JobRecord :=
  { id := 1, metaCreated := 0, metaUpdated := 0
    job := { id := 1, type := "t", schedule := none, priority := 0, concurrency := 2 }
    due := 0, completed := none, permits := 1, workers := [[1]] }

/-- A record with unlimited concurrency (`permits = -1`). -/
def cRec2 : JobRecord :=
  { id := 2, metaCreated := 0, metaUpdated := 0
    job := { id := 2, type := "t", schedule := none, priority := 0, concurrency := -1 }
    due := 0, completed := none, permits := -1, workers := [[1]] }

/-- An idle claimable record, as seen by a Step A query. -/
def raceRec : JobRecord :=
  { id := 1, metaCreated := 0, metaUpdated := 0
    job := { id := 1, type := "t", schedule := none, priority := 0, concurrency := 1 }
    due := 0, completed := none, permits := 1, workers := [] }

/-- The same record after another node claimed it: the Step B
predicate built from `raceRec` no longer matches. -/
def raceRec2 : JobRecord :=
  { raceRec with permits := 0, workers := [[7]] }

/-- Eligible record with id 1 and priority 0. -/
def tieA : JobRecord :=
  { id := 1, metaCreated := 0, metaUpdated := 0
    job := { id := 1, type := "t", schedule := none, priority := 0, concurrency := 1 }
    due := 0, completed := none, permits := 1, workers := [] }

/-- Eligible record with id 2 and the same priority as `tieA`. -/
def tieB : JobRecord :=
  { id := 2, metaCreated := 0, metaUpdated := 0
    job := { id := 2, type := "t", schedule := none, priority := 0, concurrency := 1 }
    due := 0, completed := none, permits := 1, workers := [] }

/-- Eligible record with priority 0 (higher priority). -/
def prioA : JobRecord :=
  { id := 1, metaCreated := 0, metaUpdated := 0
    job := { id := 1, type := "t", schedule := none, priority := 0, concurrency := 1 }
    due := 0, completed := none, permits := 1, workers := [] }

/-- Eligible record with priority 5 (lower priority). -/
def prioB : JobRecord :=
  { id := 2, metaCreated := 0, metaUpdated := 0
    job := { id := 2, type := "t", schedule := none, priority := 5, concurrency := 1 }
    due := 0, completed := none, permits := 1, workers := [] }

/-- An unlimited-concurrency record used to evaluate the claim-update
frame conditions. -/
def frameRec : JobRecord :=
  { id := 3, metaCreated := 0, metaUpdated := 0
    job := { id := 3, type := "t", schedule := none, priority := 0, concurrency := -1 }
    due := 7, completed := none, permits := -1, workers := [[4]] }

/-- A fully-permitted record whose single worker is long expired. -/
def expRec : JobRecord :=
  { id := 4, metaCreated := 0, metaUpdated := 0
    job := { id := 4, type := "t", schedule := none, priority := 0, concurrency := 1 }
    due := 0, completed := none, permits := 0
    workers := [createWorkerId 0 (List.replicate 24 0)] }

/-! ### Lemmas about digit strings -/

theorem lexLt_cons (a b : Nat) (as bs : List Nat) :
    lexLt (a :: as) (b :: bs) = (decide (a < b) || (a == b && lexLt as bs)) := rfl

theorem digitsVal_from (ds : List Nat) :
    ∀ a : Nat, ds.foldl (fun acc d => 16 * acc + d) a
      = a * 16 ^ ds.length + digitsVal ds := by
  induction ds with
  | nil => intro a; simp [digitsVal]
  | cons d ds ih =>
    intro a
    show ds.foldl (fun acc d => 16 * acc + d) (16 * a + d) = _
    rw [ih]
    have hd : digitsVal (d :: ds) = ds.foldl (fun acc d => 16 * acc + d) (16 * 0 + d) := rfl
    rw [hd, ih]
    simp [List.length_cons, pow_succ]
    ring

theorem digitsVal_cons (d : Nat) (ds : List Nat) :
    digitsVal (d :: ds) = d * 16 ^ ds.length + digitsVal ds := by
  show ds.foldl (fun acc x => 16 * acc + x) (16 * 0 + d) = _
  rw [digitsVal_from]
  norm_num

theorem digitsVal_append_singleton (xs : List Nat) (d : Nat) :
    digitsVal (xs ++ [d]) = 16 * digitsVal xs + d := by
  unfold digitsVal
  rw [List.foldl_append]
  rfl

theorem digitsVal_replicate_zero (k : Nat) :
    digitsVal (List.replicate k 0) = 0 := by
  induction k with
  | zero => rfl
  | succ k ih => simp [List.replicate_succ, digitsVal_cons, ih]

theorem digitsVal_padStart (k : Nat) (ds : List Nat) :
    digitsVal (padStart k ds) = digitsVal ds := by
  unfold padStart digitsVal
  rw [List.foldl_append]
  have h : List.foldl (fun acc d => 16 * acc + d) 0 (List.replicate (k - ds.length) 0) = 0 :=
    digitsVal_replicate_zero _
  rw [h]

theorem digitsVal_hexDigitsGo :
    ∀ fuel n, n < fuel → digitsVal (hexDigitsGo fuel n) = n := by
  intro fuel
  induction fuel with
  | zero => intro n h; omega
  | succ fuel ih =>
    intro n h
    by_cases h16 : n < 16
    · simp only [hexDigitsGo, if_pos h16]
      simp [digitsVal]
    · have hlt : n / 16 < n := Nat.div_lt_self (by omega) (by omega)
      have hdiv : n / 16 < fuel := by omega
      simp only [hexDigitsGo, if_neg h16]
      rw [digitsVal_append_singleton, ih _ hdiv]
      omega

theorem digitsVal_hexDigits (n : Nat) : digitsVal (hexDigits n) = n :=
  digitsVal_hexDigitsGo (n + 1) n (Nat.lt_succ_self n)

theorem hexDigitsGo_lt :
    ∀ fuel n, n < fuel → ∀ d ∈ hexDigitsGo fuel n, d < 16 := by
  intro fuel
  induction fuel with
  | zero => intro n h; omega
  | succ fuel ih =>
    intro n h d hd
    by_cases h16 : n < 16
    · simp only [hexDigitsGo, if_pos h16, List.mem_singleton] at hd
      omega
    · have hlt : n / 16 < n := Nat.div_lt_self (by omega) (by omega)
      have hdiv : n / 16 < fuel := by omega
      simp only [hexDigitsGo, if_neg h16, List.mem_append, List.mem_singleton] at hd
      rcases hd with hd | hd
      · exact ih _ hdiv d hd
      · subst hd; exact Nat.mod_lt _ (by omega)

theorem hexDigits_lt (n : Nat) : ∀ d ∈ hexDigits n, d < 16 :=
  hexDigitsGo_lt (n + 1) n (Nat.lt_succ_self n)

theorem hexDigitsGo_length_le :
    ∀ fuel n k, n < fuel → n < 16 ^ k → 1 ≤ k → (hexDigitsGo fuel n).length ≤ k := by
  intro fuel
  induction fuel with
  | zero => intro n k h; omega
  | succ fuel ih =>
    intro n k h hk h1
    by_cases h16 : n < 16
    · simp only [hexDigitsGo, if_pos h16, List.length_singleton]
      omega
    · obtain ⟨k', rfl⟩ : ∃ k', k = k' + 1 := ⟨k - 1, by omega⟩
      have hk' : 1 ≤ k' := by
        by_contra hc
        have hz : k' = 0 := by omega
        subst hz
        simp at hk
        omega
      have hlt : n / 16 < n := Nat.div_lt_self (by omega) (by omega)
      have hdiv : n / 16 < fuel := by omega
      have hpow : n / 16 < 16 ^ k' := by
        rw [Nat.div_lt_iff_lt_mul (by omega : 0 < 16)]
        calc n < 16 ^ (k' + 1) := hk
          _ = 16 ^ k' * 16 := by rw [pow_succ]
      simp only [hexDigitsGo, if_neg h16, List.length_append, List.length_singleton]
      have := ih (n / 16) k' hdiv hpow hk'
      omega

theorem hexDigits_length_le (n k : Nat) (hk : n < 16 ^ k) (h1 : 1 ≤ k) :
    (hexDigits n).length ≤ k :=
  hexDigitsGo_length_le (n + 1) n k (Nat.lt_succ_self n) hk h1

theorem padStart_length (k : Nat) (ds : List Nat) (h : ds.length ≤ k) :
    (padStart k ds).length = k := by
  simp [padStart]
  omega

theorem padStart_lt (k : Nat) (ds : List Nat) (h : ∀ d ∈ ds, d < 16) :
    ∀ d ∈ padStart k ds, d < 16 := by
  intro d hd
  simp only [padStart, List.mem_append] at hd
  rcases hd with hd | hd
  · have := List.eq_of_mem_replicate hd
    omega
  · exact h d hd

theorem digitsVal_lt_pow (ds : List Nat) (h : ∀ d ∈ ds, d < 16) :
    digitsVal ds < 16 ^ ds.length := by
  induction ds with
  | nil => simp [digitsVal]
  | cons d ds ih =>
    rw [digitsVal_cons]
    have hd : d < 16 := h d (by simp)
    have hds := ih (fun e he => h e (by simp [he]))
    calc d * 16 ^ ds.length + digitsVal ds
        < d * 16 ^ ds.length + 16 ^ ds.length := by omega
      _ = (d + 1) * 16 ^ ds.length := by ring
      _ ≤ 16 * 16 ^ ds.length := Nat.mul_le_mul_right _ (by omega)
      _ = 16 ^ (d :: ds).length := by
          rw [List.length_cons, pow_succ]
          ring

theorem lexLt_eq_true_iff (xs : List Nat) :
    ∀ ys : List Nat, xs.length = ys.length →
      (∀ d ∈ xs, d < 16) → (∀ d ∈ ys, d < 16) →
      (lexLt xs ys = true ↔ digitsVal xs < digitsVal ys) := by
  induction xs with
  | nil =>
    intro ys hlen _ _
    cases ys with
    | nil => simp [lexLt]
    | cons b bs => simp at hlen
  | cons a as ih =>
    intro ys hlen hxs hys
    cases ys with
    | nil => simp at hlen
    | cons b bs =>
      have hlen' : as.length = bs.length := by simpa using hlen
      have ha : a < 16 := hxs a (by simp)
      have hb : b < 16 := hys b (by simp)
      have hxs' : ∀ d ∈ as, d < 16 := fun d hd => hxs d (by simp [hd])
      have hys' : ∀ d ∈ bs, d < 16 := fun d hd => hys d (by simp [hd])
      have hva : digitsVal as < 16 ^ bs.length := by
        have := digitsVal_lt_pow as hxs'
        rwa [hlen'] at this
      have hvb : digitsVal bs < 16 ^ bs.length := digitsVal_lt_pow bs hys'
      rw [digitsVal_cons, digitsVal_cons, hlen', lexLt_cons]
      rcases Nat.lt_trichotomy a b with hab | hab | hab
      · constructor
        · intro _
          calc a * 16 ^ bs.length + digitsVal as
              < a * 16 ^ bs.length + 16 ^ bs.length := by omega
            _ = (a + 1) * 16 ^ bs.length := by ring
            _ ≤ b * 16 ^ bs.length := Nat.mul_le_mul_right _ (by omega)
            _ ≤ b * 16 ^ bs.length + digitsVal bs := Nat.le_add_right _ _
        · intro _
          simp [hab]
      · subst hab
        have hstep : (decide (a < a) || (a == a && lexLt as bs)) = lexLt as bs := by
          simp
        rw [hstep, ih bs hlen' hxs' hys']
        exact (Nat.add_lt_add_iff_left).symm
      · have hfalse : (decide (a < b) || (a == b && lexLt as bs)) = false := by
          have h1 : ¬(a < b) := by omega
          have h2 : a ≠ b := by omega
          simp [h1, h2]
        rw [hfalse]
        constructor
        · intro h; exact absurd h (by simp)
        · intro hval
          exfalso
          have hgt : b * 16 ^ bs.length + digitsVal bs < a * 16 ^ bs.length + digitsVal as := by
            calc b * 16 ^ bs.length + digitsVal bs
                < b * 16 ^ bs.length + 16 ^ bs.length := by omega
              _ = (b + 1) * 16 ^ bs.length := by ring
              _ ≤ a * 16 ^ bs.length := Nat.mul_le_mul_right _ (by omega)
              _ ≤ a * 16 ^ bs.length + digitsVal as := Nat.le_add_right _ _
          omega

theorem lexLt_append_iff (xs : List Nat) :
    ∀ (ys us vs : List Nat), xs.length = ys.length →
      (lexLt (xs ++ us) (ys ++ vs) = true ↔
        (lexLt xs ys = true ∨ (xs = ys ∧ lexLt us vs = true))) := by
  induction xs with
  | nil =>
    intro ys us vs hlen
    cases ys with
    | nil => simp [lexLt]
    | cons b bs => simp at hlen
  | cons a as ih =>
    intro ys us vs hlen
    cases ys with
    | nil => simp at hlen
    | cons b bs =>
      have hlen' : as.length = bs.length := by simpa using hlen
      simp only [List.cons_append, lexLt_cons, Bool.or_eq_true, Bool.and_eq_true,
        decide_eq_true_eq, beq_iff_eq, ih bs us vs hlen', List.cons.injEq]
      constructor
      · rintro (h | ⟨h1, h2 | ⟨h3, h4⟩⟩)
        · exact Or.inl (Or.inl h)
        · exact Or.inl (Or.inr ⟨h1, h2⟩)
        · exact Or.inr ⟨⟨h1, h3⟩, h4⟩
      · rintro ((h | ⟨h1, h2⟩) | ⟨⟨h1, h3⟩, h4⟩)
        · exact Or.inl h
        · exact Or.inr ⟨h1, Or.inl h2⟩
        · exact Or.inr ⟨h1, Or.inr ⟨h3, h4⟩⟩

/-- Padded 16-digit prefix facts bundled for a timestamp below `16 ^ 16`. -/
theorem padded_prefix_facts (n : Nat) (h : n < 16 ^ 16) :
    (padStart 16 (hexDigits n)).length = 16
    ∧ (∀ d ∈ padStart 16 (hexDigits n), d < 16)
    ∧ digitsVal (padStart 16 (hexDigits n)) = n := by
  refine ⟨padStart_length _ _ (hexDigits_length_le n 16 h (by omega)), ?_, ?_⟩
  · exact padStart_lt _ _ (hexDigits_lt n)
  · rw [digitsVal_padStart, digitsVal_hexDigits]

theorem lexLt_padded_iff (m n : Nat) (hm : m < 16 ^ 16) (hn : n < 16 ^ 16) :
    (lexLt (padStart 16 (hexDigits m)) (padStart 16 (hexDigits n)) = true ↔ m < n) := by
  obtain ⟨hlm, hdm, hvm⟩ := padded_prefix_facts m hm
  obtain ⟨hln, hdn, hvn⟩ := padded_prefix_facts n hn
  rw [lexLt_eq_true_iff _ _ (by rw [hlm, hln]) hdm hdn, hvm, hvn]

/-! ### Helper lemmas about records and queries -/

theorem length_filter_ne_add_count (l : List (List Nat)) (x : List Nat) :
    (l.filter (fun w => w ≠ x)).length + l.count x = l.length := by
  induction l with
  | nil => rfl
  | cons a l ih =>
    simp only [ne_eq, decide_not] at ih ⊢
    by_cases h : a = x
    · subst h
      simp [List.filter_cons, List.count_cons]
      omega
    · simp [List.filter_cons, List.count_cons, h]
      omega

theorem pickMin_mem (rs : List JobRecord) :
    ∀ best, pickMin best rs = best ∨ pickMin best rs ∈ rs := by
  induction rs with
  | nil => intro best; exact Or.inl rfl
  | cons r rs ih =>
    intro best
    have h := ih (if r.job.priority < best.job.priority then r else best)
    simp only [pickMin]
    rcases h with h | h
    · rw [h]
      by_cases hc : r.job.priority < best.job.priority
      · rw [if_pos hc]; exact Or.inr (by simp)
      · rw [if_neg hc]; exact Or.inl rfl
    · exact Or.inr (List.mem_cons_of_mem _ h)

theorem pickMin_le (rs : List JobRecord) :
    ∀ best, (pickMin best rs).job.priority ≤ best.job.priority
      ∧ ∀ r ∈ rs, (pickMin best rs).job.priority ≤ r.job.priority := by
  induction rs with
  | nil => intro best; exact ⟨le_refl _, by simp⟩
  | cons r rs ih =>
    intro best
    obtain ⟨h1, h2⟩ := ih (if r.job.priority < best.job.priority then r else best)
    simp only [pickMin]
    constructor
    · refine le_trans h1 ?_
      by_cases hc : r.job.priority < best.job.priority
      · rw [if_pos hc]; exact le_of_lt hc
      · rw [if_neg hc]
    · intro r' hr'
      rcases List.mem_cons.mp hr' with rfl | hr'
      · refine le_trans h1 ?_
        by_cases hc : r'.job.priority < best.job.priority
        · rw [if_pos hc]
        · rw [if_neg hc]; exact le_of_not_lt hc
      · exact h2 r' hr'

theorem findOneSorted_spec (p : JobRecord → Bool) (db : List JobRecord) (r : JobRecord)
    (h : findOneSorted p db = some r) :
    p r = true ∧ r ∈ db
      ∧ ∀ r' ∈ db, p r' = true → r.job.priority ≤ r'.job.priority := by
  unfold findOneSorted at h
  cases hf : db.filter p with
  | nil => rw [hf] at h; simp at h
  | cons x xs =>
    rw [hf] at h
    simp only [Option.some.injEq] at h
    subst h
    have hmem : pickMin x xs ∈ x :: xs := by
      rcases pickMin_mem xs x with h | h
      · rw [h]; simp
      · exact List.mem_cons_of_mem _ h
    have hmem' : pickMin x xs ∈ db.filter p := by rw [hf]; exact hmem
    refine ⟨List.of_mem_filter hmem', List.mem_of_mem_filter hmem', ?_⟩
    intro r' hr' hpr'
    have hr'' : r' ∈ db.filter p := List.mem_filter.mpr ⟨hr', hpr'⟩
    rw [hf] at hr''
    obtain ⟨h1, h2⟩ := pickMin_le xs x
    rcases List.mem_cons.mp hr'' with rfl | hh
    · exact h1
    · exact h2 _ hh

theorem findOneSorted_two (p : JobRecord → Bool) (db : List JobRecord) (A B : JobRecord)
    (hf : db.filter p = [A, B] ∨ db.filter p = [B, A])
    (hAB : A.job.priority < B.job.priority) :
    findOneSorted p db = some A := by
  unfold findOneSorted
  rcases hf with hf | hf <;> rw [hf]
  · simp only [pickMin]
    rw [if_neg (asymm hAB)]
  · simp only [pickMin]
    rw [if_pos hAB]

/-! ### The claims -/

/-- Claim C1: for a record with `permits ≥ 0` and
`permits + |workers| = job.concurrency`, the Step B claim update
preserves that sum (it sets the new permits to the old permits plus the
difference of the worker-list lengths), and the Step E release (which
pulls the single occurrence of the worker id while incrementing permits
by one) preserves it as well; when `permits = -1` both updates leave
permits unchanged. -/
theorem markJob_cleanup_conservation (lockDuration : Nat) (now metaNow : Int)
    (wid : List Nat) (r : JobRecord) :
    (0 ≤ r.permits → r.permits + (r.workers.length : Int) = r.job.concurrency →
      (markJobUpdate lockDuration now metaNow wid r).permits
        + ((markJobUpdate lockDuration now metaNow wid r).workers.length : Int)
        = r.job.concurrency)
    ∧ (0 ≤ r.permits → r.permits + (r.workers.length : Int) = r.job.concurrency →
        r.workers.count wid = 1 →
        (cleanupUpdate wid metaNow r).permits
          + ((cleanupUpdate wid metaNow r).workers.length : Int) = r.job.concurrency)
    ∧ (r.permits = -1 →
        (markJobUpdate lockDuration now metaNow wid r).permits = -1
        ∧ (cleanupUpdate wid metaNow r).permits = -1) := by
  refine ⟨?_, ?_, ?_⟩
  · intro h0 hsum
    simp only [markJobUpdate, List.length_append, List.length_singleton, if_pos h0]
    push_cast
    omega
  · intro h0 hsum hcnt
    have hlen := length_filter_ne_add_count r.workers wid
    simp only [cleanupUpdate, if_pos h0]
    omega
  · intro hm1
    have hneg : ¬(0 ≤ r.permits) := by omega
    constructor
    · simp only [markJobUpdate, if_neg hneg]
      exact hm1
    · simp only [cleanupUpdate, if_neg hneg]
      exact hm1

theorem markJob_cleanup_conservation_witness :
    ((markJobUpdate 10 100 100 [1] cRec1).permits
        + ((markJobUpdate 10 100 100 [1] cRec1).workers.length : Int) = 2)
    ∧ ((cleanupUpdate [1] 100 cRec1).permits
        + ((cleanupUpdate [1] 100 cRec1).workers.length : Int) = 2)
    ∧ (markJobUpdate 10 100 100 [1] cRec2).permits = -1
    ∧ (cleanupUpdate [1] 100 cRec2).permits = -1 := by
  obtain ⟨h1, h2, _⟩ := markJob_cleanup_conservation 10 100 100 [1] cRec1
  obtain ⟨_, _, h3⟩ := markJob_cleanup_conservation 10 100 100 [1] cRec2
  exact ⟨h1 (by decide) (by decide), h2 (by decide) (by decide) (by decide),
    (h3 (by decide)).1, (h3 (by decide)).2⟩

/-- Claim C2 (code behaviour at the claimed input): the schedule
recomputation after a run does NOT decrement the repeat count — a
`R3/PT1S` schedule (here `repeatDur (some 3) 1000`) is rewritten to
`R3/<end>/<period>` with the count still 3, and every later
recomputation keeps it at 3, so the `repeats === 1` removal branch is
never reached and the handler does not run exactly three times. -/
theorem repeat_count_not_decremented (now now2 s : Int) :
    getNextJobSchedule now (some (.repeatDur (some 3) 1000)) true
      = (some (now + 1000), .repeatStartDur (some 3) (now + 1000) 1000)
    ∧ getNextJobSchedule now2 (some (.repeatStartDur (some 3) s 1000)) true
      = (some (now2 + 1000), .repeatStartDur (some 3) (now2 + 1000) 1000) := by
  constructor <;> simp [getNextJobSchedule, rewriteSched]

/-- Claim C3 (amended): for a worker id built from a creation instant
and a 24-digit random suffix, `w ≤ encodeExpiredDate t` holds iff the
worker was created strictly before `t`, or exactly at `t` with an
all-zero random suffix.  (The claim's "created at or before `t`" fails
when the creation instant equals `t` and the random suffix is
nonzero.) -/
theorem workerId_threshold_le_iff (creation t : Nat) (rand : List Nat)
    (h1 : creation < 16 ^ 16) (h2 : t < 16 ^ 16)
    (h3 : rand.length = 24) (h4 : ∀ d ∈ rand, d < 16) :
    (lexLe (createWorkerId creation rand) (encodeExpiredDate t) = true ↔
      (creation < t ∨ (creation = t ∧ rand = List.replicate 24 0))) := by
  obtain ⟨hl1, hd1, hv1⟩ := padded_prefix_facts creation h1
  obtain ⟨hl2, hd2, hv2⟩ := padded_prefix_facts t h2
  have hzlen : (List.replicate 24 0 : List Nat).length = 24 := by simp
  have hrz : (lexLt rand (List.replicate 24 0) = true) ↔ False := by
    rw [lexLt_eq_true_iff rand (List.replicate 24 0) (by rw [h3, hzlen]) h4
      (fun d hd => by have := List.eq_of_mem_replicate hd; omega)]
    rw [digitsVal_replicate_zero]
    simp
  have heq : (padStart 16 (hexDigits creation) ++ rand
      = padStart 16 (hexDigits t) ++ List.replicate 24 0) ↔
      (creation = t ∧ rand = List.replicate 24 0) := by
    constructor
    · intro h
      obtain ⟨hp, hr⟩ := List.append_inj h (by rw [hl1, hl2])
      refine ⟨?_, hr⟩
      have hc := congrArg digitsVal hp
      rwa [hv1, hv2] at hc
    · rintro ⟨rfl, rfl⟩; rfl
  unfold lexLe createWorkerId encodeExpiredDate
  rw [Bool.or_eq_true, beq_iff_eq,
    lexLt_append_iff _ _ _ _ (by rw [hl1, hl2]),
    lexLt_padded_iff creation t h1 h2, heq, hrz]
  tauto

/-- Claim C3 counterexample: a worker created exactly at the threshold
instant `t = 5` with a nonzero random suffix was created "at or before"
`t`, yet its id is not `≤` the encoded threshold. -/
theorem workerId_threshold_counterexample :
    lexLe (createWorkerId 5 (List.replicate 23 0 ++ [1])) (encodeExpiredDate 5) = false
    ∧ (5 : Nat) ≤ 5 := by
  constructor
  · decide
  · decide

theorem workerId_threshold_le_iff_witness :
    (1 : Nat) < 16 ^ 16
    ∧ lexLe (createWorkerId 1 (List.replicate 24 1)) (encodeExpiredDate 2) = true := by
  constructor
  · norm_num
  · exact (workerId_threshold_le_iff 1 2 (List.replicate 24 1) (by norm_num) (by norm_num)
      (by simp) (fun d hd => by have := List.eq_of_mem_replicate hd; omega)).mpr
      (Or.inl (by omega))

/-- Claim C4: the Step B claim predicate is exactly
`id = R.id ∧ permits = R.permits ∧ workers = R.workers` (the full prior
workers sequence included); when the update matches zero documents the
iteration outcome is `retry` — not an error — and the session loop
recurses with the very same worker id and captured `now`. -/
theorem claim_predicate_and_lost_race :
    (∀ R r : JobRecord, markJobPred R r = true ↔
      (r.id = R.id ∧ r.permits = R.permits ∧ r.workers = R.workers))
    ∧ (∀ (types : TypeTable) (wid : List Nat) (now metaNow : Int) (optId : Option Nat)
        (db0 db1 : List JobRecord) (R : JobRecord),
        selectCandidate types wid now optId db0 = some R →
        (applyCondUpdateSingle (markJobPred R)
          (markJobUpdate (lockOf types R.job.type) now metaNow wid) db1).2 = 0 →
        sessionIteration types wid now metaNow optId db0 db1 = .retry)
    ∧ (∀ (types : TypeTable) (wid : List Nat) (now metaNow : Int) (optId : Option Nat)
        (env : Nat → List JobRecord × List JobRecord) (fuel : Nat),
        sessionIteration types wid now metaNow optId (env fuel).1 (env fuel).2 = .retry →
        runSession types wid now metaNow optId env (fuel + 1)
          = runSession types wid now metaNow optId env fuel) := by
  refine ⟨?_, ?_, ?_⟩
  · intro R r
    simp [markJobPred, Bool.and_eq_true, beq_iff_eq, and_assoc]
  · intro types wid now metaNow optId db0 db1 R hsel hzero
    simp only [sessionIteration, hsel]
    rw [if_pos hzero]
  · intro types wid now metaNow optId env fuel h
    simp only [runSession, h]

theorem claim_predicate_and_lost_race_witness :
    sessionIteration [("t", 10)] [2] 50 50 none [raceRec] [raceRec2] = .retry
    ∧ runSession [("t", 10)] [2] 50 50 none (fun _ => ([raceRec], [raceRec2])) 1
      = runSession [("t", 10)] [2] 50 50 none (fun _ => ([raceRec], [raceRec2])) 0 := by
  obtain ⟨h1, h2, h3⟩ := claim_predicate_and_lost_race
  constructor
  · exact h2 [("t", 10)] [2] 50 50 none [raceRec] [raceRec2] raceRec (by decide) (by decide)
  · exact h3 [("t", 10)] [2] 50 50 none (fun _ => ([raceRec], [raceRec2])) 0
      (h2 [("t", 10)] [2] 50 50 none [raceRec] [raceRec2] raceRec (by decide) (by decide))

/-- Claim C5 (amended): each candidate query returns, among the records
matching its filter, one with the smallest `job.priority`; ties between
equal priorities are resolved by store order, not by `id` (the sort
document names only `job.priority`).  Given exactly two eligible jobs
`A` and `B` with `A.priority < B.priority`, the scan selects `A`
first. -/
theorem candidate_priority_selection :
    (∀ (types : TypeTable) (wid : List Nat) (now : Int) (optId : Option Nat)
        (db : List JobRecord) (r : JobRecord),
        getIdleJob types wid now optId db = some r →
        idleMatch types wid now optId r = true
        ∧ ∀ r' ∈ db, idleMatch types wid now optId r' = true →
            r.job.priority ≤ r'.job.priority)
    ∧ (∀ (types : TypeTable) (wid : List Nat) (now : Int) (optId : Option Nat)
        (db : List JobRecord) (r : JobRecord),
        getExpiredJob types wid now optId db = some r →
        expiredMatch types wid now optId r = true
        ∧ ∀ r' ∈ db, expiredMatch types wid now optId r' = true →
            r.job.priority ≤ r'.job.priority)
    ∧ (∀ (types : TypeTable) (wid : List Nat) (now : Int) (optId : Option Nat)
        (db : List JobRecord) (A B : JobRecord),
        (db.filter (idleMatch types wid now optId) = [A, B]
          ∨ db.filter (idleMatch types wid now optId) = [B, A]) →
        A.job.priority < B.job.priority →
        getIdleJob types wid now optId db = some A) := by
  refine ⟨?_, ?_, ?_⟩
  · intro types wid now optId db r h
    unfold getIdleJob at h
    by_cases hty : types = []
    · rw [if_pos hty] at h; simp at h
    · rw [if_neg hty] at h
      obtain ⟨hp, _, hmin⟩ := findOneSorted_spec _ _ _ h
      exact ⟨hp, hmin⟩
  · intro types wid now optId db r h
    unfold getExpiredJob at h
    by_cases hty : types = []
    · rw [if_pos hty] at h; simp at h
    · rw [if_neg hty] at h
      obtain ⟨hp, _, hmin⟩ := findOneSorted_spec _ _ _ h
      exact ⟨hp, hmin⟩
  · intro types wid now optId db A B hf hAB
    have hA : idleMatch types wid now optId A = true := by
      have hmem : A ∈ db.filter (idleMatch types wid now optId) := by
        rcases hf with hf | hf <;> simp [hf]
      exact List.of_mem_filter hmem
    have hty : types ≠ [] := by
      intro hnil
      subst hnil
      simp [idleMatch] at hA
    unfold getIdleJob
    rw [if_neg hty]
    exact findOneSorted_two _ _ A B hf hAB

/-- Claim C5 counterexample: two eligible records with equal priority,
where the store order puts the larger id first — the query returns the
larger-id record, so `id` is not a tie-break. -/
theorem candidate_tiebreak_counterexample :
    getIdleJob [("t", 10)] [9] 50 none [tieB, tieA] = some tieB
    ∧ tieA.job.priority = tieB.job.priority
    ∧ tieA.id < tieB.id
    ∧ idleMatch [("t", 10)] [9] 50 none tieA = true
    ∧ tieA ≠ tieB := by
  refine ⟨by decide, by decide, by decide, by decide, by decide⟩

theorem candidate_priority_selection_witness :
    getIdleJob [("t", 10)] [9] 50 none [prioB, prioA] = some prioA := by
  obtain ⟨_, _, h3⟩ := candidate_priority_selection
  exact h3 [("t", 10)] [9] 50 none [prioB, prioA] prioA prioB (Or.inr (by decide)) (by decide)

/-- Claim C6: a handler failure — whether a synchronous throw or an
error passed to the callback — is captured as a value and changes
nothing about the Step D/E post-run processing: the resulting store is
identical for every handler outcome, so the job is rescheduled (or
removed when the schedule is exhausted) exactly as after a success. -/
theorem handler_failure_does_not_abort_reschedule
    (o1 o2 : HandlerOutcome) (record : JobRecord) (wid : List Nat)
    (now metaNow : Int) (db : List JobRecord) (e : String) :
    (runClaimed o1 record wid now metaNow db).2
      = (runClaimed o2 record wid now metaNow db).2
    ∧ runJobStep (.thrown e) = some e
    ∧ runJobStep (.callbackError e) = some e := by
  refine ⟨?_, rfl, rfl⟩
  simp only [runClaimed]
  cases h : (checkResultStep now record.job metaNow db).1 <;> simp [h]

/-- Claim C7: when a `R[n]/START/DURATION` schedule is recomputed after
a run, the interval start is reset to the current time, so the new due
instant is `now + period`; with a positive period this strictly exceeds
any prior due instant that was `≤ now`. -/
theorem reschedule_monotone (now start period priorDue : Int) (rep : Option Nat)
    (h1 : priorDue ≤ now) (h2 : 0 < period) :
    (getNextJobSchedule now (some (.repeatStartDur rep start period)) true).1
      = some (now + period)
    ∧ priorDue < now + period := by
  constructor
  · rfl
  · omega

theorem reschedule_monotone_witness :
    (getNextJobSchedule 10 (some (.repeatStartDur none 0 5)) true).1 = some 15
    ∧ (10 : Int) < 15 := by
  have h := reschedule_monotone 10 0 5 10 none (by omega) (by omega)
  exact ⟨by rw [h.1]; norm_num, h.2⟩

/-- Claim C8: on insert (no `update` option) the schedule calculator
returns the start of the first interval — `START` for the three-part
shape, the current time for the two-part shape, and the instant itself
for a single timestamp; a job with no schedule at all becomes an
instant schedule for "now" (run once: a later update of an instant
schedule returns no next due time). -/
theorem insert_schedule_start (now t start period : Int) (rep : Option Nat) :
    getNextJobSchedule now (some (.repeatStartDur rep start period)) false
      = (some start, .repeatStartDur rep start period)
    ∧ getNextJobSchedule now (some (.repeatDur rep period)) false
      = (some now, .repeatDur rep period)
    ∧ getNextJobSchedule now (some (.instant t)) false = (some t, .instant t)
    ∧ getNextJobSchedule now none false = (some now, .instant now)
    ∧ (getNextJobSchedule now (some (.instant t)) true).1 = none := by
  exact ⟨rfl, rfl, rfl, rfl, rfl⟩

/-- Claim C9: the Step B claim update touches only `meta.updated`,
`workers` and (when non-negative) `permits`: `due`, `completed`, the
whole `job` subdocument, the record id and `meta.created` are
unchanged, and a negative (unlimited) permits value is also
unchanged. -/
theorem markJob_frame (lockDuration : Nat) (now metaNow : Int) (wid : List Nat)
    (r : JobRecord) :
    (markJobUpdate lockDuration now metaNow wid r).due = r.due
    ∧ (markJobUpdate lockDuration now metaNow wid r).completed = r.completed
    ∧ (markJobUpdate lockDuration now metaNow wid r).job = r.job
    ∧ (markJobUpdate lockDuration now metaNow wid r).id = r.id
    ∧ (markJobUpdate lockDuration now metaNow wid r).metaCreated = r.metaCreated
    ∧ (r.permits < 0 →
        (markJobUpdate lockDuration now metaNow wid r).permits = r.permits) := by
  refine ⟨rfl, rfl, rfl, rfl, rfl, ?_⟩
  intro h
  simp only [markJobUpdate]
  rw [if_neg (by omega)]

theorem markJob_frame_witness :
    (markJobUpdate 10 100 100 [5] frameRec).due = frameRec.due
    ∧ (markJobUpdate 10 100 100 [5] frameRec).permits = frameRec.permits := by
  have h := markJob_frame 10 100 100 [5] frameRec
  exact ⟨h.1, h.2.2.2.2.2 (by decide)⟩

/-- Claim C10: the expired-candidate query requires `permits = 0`
exactly: whenever it returns a record that record has zero permits, and
a record whose permits are nonzero (unlimited `-1` or any positive
count) never matches the expired filter at all. -/
theorem expired_query_zero_permits :
    (∀ (types : TypeTable) (wid : List Nat) (now : Int) (optId : Option Nat)
        (db : List JobRecord) (r : JobRecord),
        getExpiredJob types wid now optId db = some r → r.permits = 0)
    ∧ (∀ (types : TypeTable) (wid : List Nat) (now : Int) (optId : Option Nat)
        (r : JobRecord), r.permits ≠ 0 →
        expiredMatch types wid now optId r = false) := by
  constructor
  · intro types wid now optId db r h
    unfold getExpiredJob at h
    by_cases hty : types = []
    · rw [if_pos hty] at h; simp at h
    · rw [if_neg hty] at h
      obtain ⟨hp, _, _⟩ := findOneSorted_spec _ _ _ h
      unfold expiredMatch at hp
      simp only [Bool.and_eq_true, beq_iff_eq] at hp
      exact hp.1.2
  · intro types wid now optId r h
    unfold expiredMatch
    have hb : (r.permits == 0) = false := by
      simpa using h
    simp [hb]

theorem expired_query_zero_permits_witness :
    getExpiredJob [("t", 10)] [9] 100 none [expRec] = some expRec
    ∧ expRec.permits = 0 := by
  have h := expired_query_zero_permits
  exact ⟨by decide, h.1 [("t", 10)] [9] 100 none [expRec] expRec (by decide)⟩

end BedrockJobs
